import Mathlib

/-!
Verification development for the voice pipeline of the legal-research chat
frontend: the speech recognition hooks (`useSpeechRecognition.js`,
`useBrowserSpeechRecognition.js`, `useOpenAISpeechRecognition.js`), the
synthesis hook (`useSpeechSynthesis.js`) and the streaming PCM playback
scheduler (`useAudioPlayback.js`).

The JavaScript code is embedded shallowly: React `useState`/`useRef` cells
become fields of explicit state structures, event handlers become state
transition functions, machine floats on the audio clock become exact
rationals, and effects (fetch, callbacks, timers) are logged as explicit
action values.  Base64 payloads are modelled by the byte lists they decode
to.
-/

namespace VoicePipeline

/-! ### JavaScript string primitives

`trim`, `split(/\s+/)`, `toLowerCase` and `Array.join(sep)` as used by the
transcript-assembly code.  Words are split on runs of whitespace after
trimming, exactly as `s.trim().split(/\s+/)` behaves (on the empty string
that JavaScript expression yields `[""]`).
-/

/-- Whitespace characters recognised by the embedding (the ASCII part of
the JavaScript regexp class). -/
def jsWhitespace (c : Char) : Bool :=
  c = ' ' || c = '\t' || c = '\n' || c = '\r' || c = '\x0b' || c = '\x0c'

/-- Drop leading whitespace of a character list. -/
def dropLeadingWs : List Char → List Char
  | [] => []
  | c :: rest => if jsWhitespace c then dropLeadingWs rest else c :: rest

/-- JavaScript `String.prototype.trim` (ASCII whitespace). -/
def jsTrim (s : String) : String :=
  String.mk ((dropLeadingWs ((dropLeadingWs s.data).reverse)).reverse)

/-- Split a character list into maximal whitespace-free words.  The first
argument accumulates the (reversed) current word. -/
def wordsAux (current : List Char) : List Char → List String
  | [] => if current.isEmpty then [] else [String.mk current.reverse]
  | c :: rest =>
    if jsWhitespace c then
      if current.isEmpty then wordsAux [] rest
      else String.mk current.reverse :: wordsAux [] rest
    else wordsAux (c :: current) rest

/-- JavaScript `s.trim().split(/\s+/)`: on a whitespace-only string this is
`[""]`, otherwise the list of whitespace-separated words. -/
def jsSplitWS (s : String) : List String :=
  let t := jsTrim s
  if t = "" then [""] else wordsAux [] t.data

/-- JavaScript `String.prototype.toLowerCase` (character-wise). -/
def jsToLower (s : String) : String :=
  String.mk (s.data.map Char.toLower)

/-- JavaScript `Array.prototype.join(sep)`. -/
def jsJoin (sep : String) : List String → String
  | [] => ""
  | [w] => w
  | w :: rest => w ++ sep ++ jsJoin sep rest

end VoicePipeline

namespace VoicePipeline.UseAudioPlayback

/-!
### `useAudioPlayback.js` — streaming PCM playback scheduler

State of the hook: the refs `pcmBufferRef`, `isReceivingAudioRef`,
`isProcessingRef`, `sampleRateRef`, `nextPlayTimeRef`, `receivedRef` and
the React states `isPlaying`, `isMuted`.  Instead of the bare counter
`playedRef` the embedding logs each scheduled chunk as a
`(startTime, duration)` pair, in play order, so that the schedule can be
inspected; `played.length` is the counter of the source.
-/

structure PlaybackState where
  pcmBuffer : List (List Nat)
  isPlaying : Bool
  isMuted : Bool
  isReceivingAudio : Bool
  isProcessing : Bool
  sampleRate : ℚ
  received : Nat
  nextPlayTime : ℚ
  played : List (ℚ × ℚ)
  deriving Repr, DecidableEq

/-- State of the hook before any call: the initial values of the refs and
`useState` cells of `useAudioPlayback`. -/
def initialPlaybackState : PlaybackState :=
  { pcmBuffer := []
    isPlaying := false
    isMuted := false
    isReceivingAudio := false
    isProcessing := false
    sampleRate := 24000
    received := 0
    nextPlayTime := 0
    played := [] }

/-- Minimum chunks to buffer before playback (`initialBufferSize`). -/
def initialBufferSize : Nat := 8

/-- One iteration of the 16-bit decode in `createAudioBuffer`:
`(sample >= 0x8000) ? -1 + ((sample & 0x7fff) / 0x8000) : sample / 0x7fff`. -/
def pcmToFloat (sample : Nat) : ℚ :=
  if 0x8000 ≤ sample then -1 + (((sample &&& 0x7fff : Nat) : ℚ) / 0x8000)
  else (sample : ℚ) / 0x7fff

/-- The decode loop of `createAudioBuffer`: consume the bytes two at a time,
little-endian (`(pcmData[offset] & 0xff) | ((pcmData[offset+1] & 0xff) << 8)`),
and convert each 16-bit sample to a float. -/
def decodeSamples : List Nat → List ℚ
  | b0 :: b1 :: rest => pcmToFloat ((b0 % 256) + (b1 % 256) * 256) :: decodeSamples rest
  | _ => []

/-- `createAudioBuffer(pcmData)`: builds a mono audio buffer of
`pcmData.length / 2` samples.  `AudioContext.createBuffer` throws (and the
surrounding `try` returns `null`) when the sample count is zero or not a
whole number, so those inputs yield `none`. -/
def createAudioBuffer (pcmData : List Nat) : Option (List ℚ) :=
  if pcmData.length = 0 ∨ pcmData.length % 2 ≠ 0 then none
  else some (decodeSamples pcmData)

/-- `playChunk(audioBuffer)` at a given audio-clock reading `currentTime`
for a buffer of duration `dur` (seconds): schedules the source at
`max(currentTime, nextPlayTime)` and advances `nextPlayTime` by the
duration.  The scheduled `(startTime, duration)` pair is appended to the
play log. -/
def playChunk (currentTime dur : ℚ) (st : PlaybackState) : PlaybackState :=
  let startTime := max currentTime st.nextPlayTime
  { st with nextPlayTime := startTime + dur
            played := st.played ++ [(startTime, dur)] }

/-- The `while (pcmBufferRef.current.length > 0)` loop of `processBuffer`:
shift a chunk, decode it (skipping chunks the decoder rejects), play it,
and mark playback as started. -/
def processBufferLoop (currentTime : ℚ) : List (List Nat) → PlaybackState → PlaybackState
  | [], st => st
  | chunk :: rest, st =>
    match createAudioBuffer chunk with
    | none => processBufferLoop currentTime rest st
    | some samples =>
      let dur := (samples.length : ℚ) / st.sampleRate
      processBufferLoop currentTime rest { playChunk currentTime dur st with isPlaying := true }

/-- `processBuffer()`: returns immediately when already processing or the
queue is empty; before playback has started it also returns while fewer
than `initialBufferSize` chunks are queued (the buffering gate); otherwise
it drains the whole queue. -/
def processBuffer (currentTime : ℚ) (st : PlaybackState) : PlaybackState :=
  if st.isProcessing ∨ st.pcmBuffer.isEmpty then st
  else if st.isPlaying = false ∧ st.pcmBuffer.length < initialBufferSize then st
  else
    let st1 := { st with isProcessing := true, pcmBuffer := [] }
    let st2 := processBufferLoop currentTime st.pcmBuffer st1
    { st2 with isProcessing := false }

/-- `processPcmChunk(base64data)`: drop the chunk while muted or not
receiving; otherwise count it, append its decoded bytes to the queue and,
when no drain is running, call `processBuffer`. -/
def processPcmChunk (currentTime : ℚ) (bytes : List Nat) (st : PlaybackState) : PlaybackState :=
  if st.isMuted ∨ st.isReceivingAudio = false then st
  else
    let st1 := { st with received := st.received + 1, pcmBuffer := st.pcmBuffer ++ [bytes] }
    if st1.isProcessing = false then processBuffer currentTime st1 else st1

/-- `startPcmStream(sampleRate)`: no-op while muted, otherwise reset all
buffers, counters and the play cursor, and start receiving. -/
def startPcmStream (sampleRate : ℚ) (st : PlaybackState) : PlaybackState :=
  if st.isMuted then st
  else
    { st with pcmBuffer := []
              isReceivingAudio := true
              isProcessing := false
              sampleRate := sampleRate
              nextPlayTime := 0
              received := 0
              played := []
              isPlaying := false }

/-- `endPcmStream()`: stop receiving; if chunks remain queued and no drain
is running, call `processBuffer`. -/
def endPcmStream (currentTime : ℚ) (st : PlaybackState) : PlaybackState :=
  let st1 := { st with isReceivingAudio := false }
  if st1.pcmBuffer.isEmpty = false ∧ st1.isProcessing = false then processBuffer currentTime st1
  else st1

/-- Iterate `playChunk` over a list of (clock reading, duration) pairs. -/
def playMany (st : PlaybackState) (chunks : List (ℚ × ℚ)) : PlaybackState :=
  chunks.foldl (fun s p => playChunk p.1 p.2 s) st

end VoicePipeline.UseAudioPlayback


namespace VoicePipeline

/-! ### Shared modelling of network requests and logged effects

The transcription fetch is external: its result is passed in as a
`FetchOutcome`.  Side effects the hooks perform (issuing the fetch,
invoking the `onTranscriptReady` callback, scheduling a deferred
`startListening` via `setTimeout`) are logged as `Action` values.
-/

/-- Result of the `fetch(apiEndpoint, ...)` call for transcription.
`networkError` is a rejected fetch promise (with its message);
`httpError` is a non-2xx response (`errField` is the `error` field of the
parsed JSON body when present); `success` is a 2xx response whose JSON
body has the given optional `text` field. -/
inductive FetchOutcome where
  | networkError (msg : String)
  | httpError (status : Nat) (errField : Option String)
  | success (text : Option String)
  deriving Repr, DecidableEq

/-- Logged side effects of the transcription routines. -/
inductive Action where
  | fetchRequest
  | callbackInvoked (text : String)
  | scheduleBaseStartAfter (delayMs : Nat)
  deriving Repr, DecidableEq

end VoicePipeline

namespace VoicePipeline.UseSpeechRecognition

/-!
### `useSpeechRecognition.js` — recognition orchestrator

React state of the hook: `isProcessing`, `error`, `useOpenAI`,
`transcript`.  `useOpenAI` selects the cloud (OpenAI) engine when true and
the base (browser) engine when false.
-/

structure OrchState where
  isProcessing : Bool
  error : Option String
  useOpenAI : Bool
  transcript : String
  deriving Repr, DecidableEq

/-- Initial values of the four `useState` cells of `useSpeechRecognition`:
`useState(false)`, `useState(null)`, `useState(false)`, `useState('')`. -/
def initialOrchState : OrchState :=
  { isProcessing := false, error := none, useOpenAI := false, transcript := "" }

/-- `transcribeAudio(audioBlob)` of the orchestrator, as a function of the
blob size, the outcome of the (external) fetch, and the hook state.  The
`catch` branch sets the error, flips `useOpenAI` to `false` and schedules
`browserSpeechRecognition.startListening` after 100ms; it is reached on a
zero-size blob, a rejected fetch, a non-ok response, or a response with a
missing/empty `text` field. -/
def transcribeAudio (blobSize : Nat) (outcome : FetchOutcome) (st : OrchState) :
    OrchState × List Action :=
  let stTry := { st with isProcessing := true, error := none }
  let fail := fun (msg : String) (acts : List Action) =>
    ({ stTry with error := some msg, useOpenAI := false, isProcessing := false },
     acts ++ [Action.scheduleBaseStartAfter 100])
  if blobSize = 0 then fail "No audio recorded" []
  else
    match outcome with
    | .networkError msg => fail msg [.fetchRequest]
    | .httpError status errField =>
      fail (errField.getD ("Transcription failed: " ++ toString status)) [.fetchRequest]
    | .success text =>
      if text.getD "" = "" then fail "No transcription text received" [.fetchRequest]
      else
        let transcribedText := jsTrim (text.getD "")
        let st1 := { stTry with transcript := transcribedText, isProcessing := false }
        if transcribedText = "" then (st1, [.fetchRequest])
        else (st1, [.fetchRequest, .callbackInvoked transcribedText])

/-- `toggleRecognitionType()`: flips `useOpenAI`, clears the error and the
transcript (stopping any in-flight capture, which carries no state here). -/
def toggleRecognitionType (st : OrchState) : OrchState :=
  { st with useOpenAI := !st.useOpenAI, error := none, transcript := "" }

/-- The events of the orchestrator that touch the engine-selection flag:
a completed cloud transcription attempt, or the user toggle.  No other
code path of the hook writes `useOpenAI`. -/
inductive OrchEvent where
  | transcribe (blobSize : Nat) (outcome : FetchOutcome)
  | toggle
  deriving Repr, DecidableEq

/-- One step of the orchestrator. -/
def orchStep : OrchEvent → OrchState → OrchState × List Action
  | .transcribe n out, st => transcribeAudio n out st
  | .toggle, st => (toggleRecognitionType st, [])

/-- The failure shapes of claim C8: rejected fetch, non-2xx response, or a
response whose `text` field is missing or empty (falsy). -/
def isTranscriptionFailure : FetchOutcome → Bool
  | .networkError _ => true
  | .httpError _ _ => true
  | .success text => text.getD "" == ""

end VoicePipeline.UseSpeechRecognition

namespace VoicePipeline.UseOpenAISpeechRecognition

/-!
### `useOpenAISpeechRecognition.js` — standalone cloud recognition engine

Its `transcribeAudio` differs from the orchestrator's: a zero-size blob
and a missing `text` field both return `null` early (the former setting an
error), and the `catch` branch only records the error — there is no
engine fallback in this hook.
-/

structure RecState where
  isListening : Bool
  transcript : String
  isProcessing : Bool
  error : Option String
  deriving Repr, DecidableEq

/-- Initial values of the `useState` cells of `useOpenAISpeechRecognition`. -/
def initialRecState : RecState :=
  { isListening := false, transcript := "", isProcessing := false, error := none }

/-- `transcribeAudio(audioBlob)` of the standalone cloud engine. -/
def transcribeAudio (blobSize : Nat) (outcome : FetchOutcome) (st : RecState) :
    RecState × List Action :=
  let stTry := { st with isProcessing := true, error := none }
  if blobSize = 0 then
    ({ stTry with error := some "No audio recorded", isProcessing := false }, [])
  else
    match outcome with
    | .networkError msg =>
      ({ stTry with error := some msg, isProcessing := false }, [.fetchRequest])
    | .httpError status _ =>
      ({ stTry with error := some ("Transcription failed: " ++ toString status),
                    isProcessing := false }, [.fetchRequest])
    | .success text =>
      if text.getD "" = "" then ({ stTry with isProcessing := false }, [.fetchRequest])
      else
        let transcribedText := jsTrim (text.getD "")
        let st1 := { stTry with transcript := transcribedText, isProcessing := false }
        if transcribedText = "" then (st1, [.fetchRequest])
        else (st1, [.fetchRequest, .callbackInvoked transcribedText])

end VoicePipeline.UseOpenAISpeechRecognition

namespace VoicePipeline.UseSpeechSynthesis

/-!
### `useSpeechSynthesis.js` — synthesis engine selection state
-/

structure SynthState where
  isSpeaking : Bool
  isLoading : Bool
  error : Option String
  useOpenAI : Bool
  deriving Repr, DecidableEq

/-- Initial values of the four `useState` cells of `useSpeechSynthesis`:
`useState(false)`, `useState(false)`, `useState(null)`, `useState(false)`. -/
def initialSynthState : SynthState :=
  { isSpeaking := false, isLoading := false, error := none, useOpenAI := false }

end VoicePipeline.UseSpeechSynthesis

namespace VoicePipeline.SilenceDetection

/-!
### `startSilenceDetection` — amplitude-based auto-stop

The same routine appears in `useOpenAISpeechRecognition.js` (calling
`stopListening`) and in `useSpeechRecognition.js` (calling
`stopOpenAIListening`).  Each animation frame reads the analyser, averages
the frequency bins, and runs the `checkAudioLevel` branch chain.  A frame
is modelled by the wall-clock time of its `Date.now()` reads, the computed
average amplitude, and the `isRecordingRef.current` guard value.
-/

structure Frame where
  time : ℚ
  avg : ℚ
  recording : Bool
  deriving Repr, DecidableEq

/-- Detector state: the locals `speechStarted` and `silenceStart` of
`startSilenceDetection`, whether the loop still re-arms
`requestAnimationFrame` (`active`), and the pending auto-stop timeout
(`silenceTimeoutRef`): `stopDelay` is the delay of the scheduled stop and
`stopCount` counts how many times a stop was scheduled. -/
structure DetState where
  speechStarted : Bool
  silenceStart : Option ℚ
  active : Bool
  stopDelay : Option ℚ
  stopCount : Nat
  deriving Repr, DecidableEq

/-- State when `checkAudioLevel` is first entered. -/
def initialDetState : DetState :=
  { speechStarted := false, silenceStart := none, active := true,
    stopDelay := none, stopCount := 0 }

/-- One `checkAudioLevel` invocation on one animation frame. -/
def checkAudioLevel (st : DetState) (f : Frame) : DetState :=
  if st.active = false then st
  else if f.recording = false then { st with active := false }
  else if 30 < f.avg then
    -- Sound detected: mark speech, leave silence, clear any pending stop.
    { st with speechStarted := true, silenceStart := none, stopDelay := none }
  else if st.speechStarted ∧ st.silenceStart = none then
    -- Start of silence after speech.
    { st with silenceStart := some f.time }
  else if st.speechStarted ∧ st.silenceStart.isSome then
    -- Check whether the silence duration exceeded 2000ms; if so schedule
    -- the auto-stop after a 100ms debounce and stop polling.
    if 2000 < f.time - (st.silenceStart.getD 0) then
      if st.stopDelay = none then
        { st with stopDelay := some 100, stopCount := st.stopCount + 1, active := false }
      else { st with active := false }
    else st
  else st

/-- Run the detector over a whole recording session's frames. -/
def runSilence (frames : List Frame) : DetState :=
  frames.foldl checkAudioLevel initialDetState

end VoicePipeline.SilenceDetection

namespace VoicePipeline.UseBrowserSpeechRecognition

/-!
### `useBrowserSpeechRecognition.js` — transcript assembly

`mergeSpeechSegments` (overlap-aware concatenation of final segments) and
`applyHumanWordLimitLogic` (word-count throttling heuristic).
-/

open VoicePipeline

/-- The inner loop body test of `mergeSpeechSegments`: do the last
`overlap` words of `existingWords` equal the first `overlap` words of
`newWords`, case-insensitively?  (For `overlap` between 1 and the two
lengths this is exactly the element-wise `for (j = 0; j < overlap; j++)`
comparison of the source.) -/
def overlapMatches (existingWords newWords : List String) (overlap : Nat) : Bool :=
  ((existingWords.drop (existingWords.length - overlap)).map jsToLower) ==
    ((newWords.take overlap).map jsToLower)

/-- The `for (overlap = 1; overlap <= maxOverlap; overlap++)` loop of
`mergeSpeechSegments`: starting from `overlapStart = -1`, overwrite
`overlapStart` with each `overlap` that matches. -/
def mergeOverlapStart (existingWords newWords : List String) : Int :=
  let maxOverlap := min (min existingWords.length newWords.length) 10
  (List.range' 1 maxOverlap).foldl
    (fun acc overlap => if overlapMatches existingWords newWords overlap then (overlap : Int) else acc)
    (-1)

/-- `mergeSpeechSegments(existing, newSegment)`: append the new segment to
the existing final text, first stripping from the new segment the longest
word-level boundary overlap found by the loop. -/
def mergeSpeechSegments (existing newSegment : String) : String :=
  if existing = "" then newSegment
  else if newSegment = "" then existing
  else
    let existingWords := jsSplitWS existing
    let newWords := jsSplitWS newSegment
    let overlapStart := mergeOverlapStart existingWords newWords
    if 0 < overlapStart then
      let nonOverlapping := jsJoin " " (newWords.drop overlapStart.toNat)
      existing ++ (if nonOverlapping = "" then "" else " " ++ nonOverlapping)
    else existing ++ " " ++ newSegment

/-- Specification-side description of the loop result: the longest
`overlap` between 1 and `min(existingWords.length, newWords.length, 10)`
whose boundary words match case-insensitively, or `0` when none matches. -/
def longestBoundaryOverlap (existingWords newWords : List String) : Nat :=
  Nat.findGreatest (fun k => overlapMatches existingWords newWords k = true)
    (min (min existingWords.length newWords.length) 10)

/-- The `targetPositions` array of `applyHumanWordLimitLogic`:
`[n-2, n-1, n, n+1, n+2]` filtered to valid indices. -/
def targetPositions (n : Int) (len : Nat) : List Int :=
  [n - 2, n - 1, n, n + 1, n + 2].filter (fun idx => decide (0 ≤ idx ∧ idx < (len : Int)))

/-- The first loop of `applyHumanWordLimitLogic`: the first target position
holding the transcript's first word (case-insensitively). -/
def windowRecurrence (words : List String) (n : Int) : Option Int :=
  (targetPositions n words.length).find?
    (fun t => jsToLower (words.getD t.toNat "") == jsToLower (words.headD ""))

/-- The fallback loop of `applyHumanWordLimitLogic`: scanning indices from
the back, the first (hence overall last) index holding the first word. -/
def lastRecurrence (words : List String) : Option Nat :=
  (List.range words.length).reverse.find?
    (fun i => jsToLower (words.getD i "") == jsToLower (words.headD ""))

/-- `applyHumanWordLimitLogic(fullTranscript)`, parameterised by the
elapsed session time in seconds (`(Date.now() - startTimeRef.current) /
1000`) and the configured `wordsPerSecond` rate (default 2). -/
def applyHumanWordLimitLogic (fullTranscript : String)
    (elapsedSeconds wordsPerSecond : ℚ) : String :=
  let words := jsSplitWS fullTranscript
  let n : Int := ⌊elapsedSeconds * wordsPerSecond⌋
  if (n + 3 : Int) < (words.length : Int) then
    let foundIndex : Option Nat :=
      match windowRecurrence words n with
      | some t => some t.toNat
      | none => lastRecurrence words
    match foundIndex with
    | some i => if i < words.length then jsJoin " " (words.drop i) else fullTranscript
    | none => fullTranscript
  else fullTranscript

end VoicePipeline.UseBrowserSpeechRecognition

namespace VoicePipeline

open UseAudioPlayback UseSpeechRecognition UseOpenAISpeechRecognition UseSpeechSynthesis
open SilenceDetection UseBrowserSpeechRecognition

/-! ## Claims -/

/-- C1 (counterexample): the claim says both engine-selection flags start
out `true` (cloud-first); in the code both `useState(false)` cells start
out `false`. -/
theorem initial_engine_flags_not_both_cloud :
    ¬(initialOrchState.useOpenAI = true ∧ initialSynthState.useOpenAI = true) := by
  decide

/-- C1 (amended): at the start of a chat session the recognition hook's
`useOpenAI` and the synthesis hook's `useOpenAI` are both initialized to
`false`, so the browser (base) engine is the initially selected engine for
both recognition and synthesis. -/
theorem initial_engine_flags_browser_first :
    initialOrchState.useOpenAI = false ∧ initialSynthState.useOpenAI = false := by
  decide

/-- C2 (code behaviour at the failing input): with `initialBufferSize = 8`
and playback not yet started, feeding 7 chunks via `processPcmChunk` plays
zero chunks — and calling `endPcmStream` still plays zero of the 7 queued
chunks, because `processBuffer` re-applies the buffering gate
(`!isPlaying && length < initialBufferSize`) to the end-of-stream flush.
The claim (and the comment in `endPcmStream`) expect the remaining 7 to be
played. -/
theorem endPcmStream_does_not_flush_short_stream :
    ((List.replicate 7 [0, 0]).foldl (fun s c => processPcmChunk 0 c s)
        (startPcmStream 24000 initialPlaybackState)).played.length = 0 ∧
    (endPcmStream 0 ((List.replicate 7 [0, 0]).foldl (fun s c => processPcmChunk 0 c s)
        (startPcmStream 24000 initialPlaybackState))).played.length = 0 ∧
    ((List.replicate 7 [0, 0]).foldl (fun s c => processPcmChunk 0 c s)
        (startPcmStream 24000 initialPlaybackState)).pcmBuffer.length = 7 := by
  decide

/-- C4: the PCM decoder interprets the bytes pairwise as 16-bit signed
little-endian mono samples, maps a 16-bit value `v` to
`-1 + (v & 0x7fff) / 0x8000` when `v ≥ 0x8000` and to `v / 0x7fff`
otherwise, and in particular decodes byte pair `0x00 0x00` to `0.0`,
`0xFF 0x7F` to `1.0` and `0x00 0x80` to `-1.0`. -/
theorem pcm_decode_correct :
    (∀ b0 b1 rest, decodeSamples (b0 :: b1 :: rest) =
        pcmToFloat ((b0 % 256) + (b1 % 256) * 256) :: decodeSamples rest) ∧
    (∀ v : Nat, pcmToFloat v =
        if 0x8000 ≤ v then -1 + (((v &&& 0x7fff : Nat) : ℚ) / 0x8000)
        else (v : ℚ) / 0x7fff) ∧
    decodeSamples [0x00, 0x00] = [0] ∧
    decodeSamples [0xFF, 0x7F] = [1] ∧
    decodeSamples [0x00, 0x80] = [-1] := by
  have hland : (32768 &&& 32767 : Nat) = 0 := by decide
  refine ⟨fun _ _ _ => rfl, fun _ => rfl, ?_, ?_, ?_⟩ <;>
    · show _ :: _ = _
      norm_num [pcmToFloat, decodeSamples, hland]

/-- C9: on a zero-size audio blob both transcription routines fail fast:
they surface an error state (the orchestrator's, via its thrown
`No audio recorded`; the standalone engine's, via its early return),
invoke no `onTranscriptReady` callback, and issue no network request. -/
theorem zero_byte_blob_fails_fast :
    ∀ (outcome : FetchOutcome),
      (∀ st : OrchState,
        (UseSpeechRecognition.transcribeAudio 0 outcome st).1.error.isSome = true ∧
        Action.fetchRequest ∉ (UseSpeechRecognition.transcribeAudio 0 outcome st).2 ∧
        ∀ t, Action.callbackInvoked t ∉ (UseSpeechRecognition.transcribeAudio 0 outcome st).2) ∧
      (∀ st : RecState,
        (UseOpenAISpeechRecognition.transcribeAudio 0 outcome st).1.error.isSome = true ∧
        Action.fetchRequest ∉ (UseOpenAISpeechRecognition.transcribeAudio 0 outcome st).2 ∧
        ∀ t, Action.callbackInvoked t ∉ (UseOpenAISpeechRecognition.transcribeAudio 0 outcome st).2) := by
  intro outcome
  constructor
  · intro st
    simp [UseSpeechRecognition.transcribeAudio]
  · intro st
    simp [UseOpenAISpeechRecognition.transcribeAudio]

end VoicePipeline

namespace VoicePipeline

open UseAudioPlayback UseSpeechRecognition UseSpeechSynthesis

/-- C8: whenever cloud transcription fails — rejected fetch, non-2xx
response, or a response with a missing/empty `text` — the orchestrator
flips `useOpenAI` to `false` and schedules the base engine's
`startListening` after a 100ms delay; and the flag only ever returns to
`true` through the user's `toggleRecognitionType`, so the fallback is
one-way for the rest of the session. -/
theorem cloud_transcription_failure_falls_back :
    (∀ (blobSize : Nat) (outcome : FetchOutcome) (st : OrchState),
      blobSize ≠ 0 → isTranscriptionFailure outcome = true →
        (UseSpeechRecognition.transcribeAudio blobSize outcome st).1.useOpenAI = false ∧
        Action.scheduleBaseStartAfter 100 ∈
          (UseSpeechRecognition.transcribeAudio blobSize outcome st).2) ∧
    (∀ (ev : OrchEvent) (st : OrchState),
      (orchStep ev st).1.useOpenAI = true → st.useOpenAI = true ∨ ev = OrchEvent.toggle) := by
  constructor
  · intro blobSize outcome st hn hfail
    cases outcome with
    | networkError msg => simp [UseSpeechRecognition.transcribeAudio, hn]
    | httpError status errField => simp [UseSpeechRecognition.transcribeAudio, hn]
    | success text =>
      have htext : text.getD "" = "" := by
        simpa [isTranscriptionFailure] using hfail
      simp [UseSpeechRecognition.transcribeAudio, hn, htext]
  · intro ev st h
    cases ev with
    | toggle => exact Or.inr rfl
    | transcribe n out =>
      refine Or.inl ?_
      cases out <;>
        · simp only [orchStep, UseSpeechRecognition.transcribeAudio] at h
          split_ifs at h <;> simp_all

/-- C8 witness: an HTTP 500 from the transcription endpoint flips the
flag and schedules the base engine start. -/
theorem cloud_transcription_failure_falls_back_witness :
    (UseSpeechRecognition.transcribeAudio 1 (FetchOutcome.httpError 500 none)
        initialOrchState).1.useOpenAI = false ∧
    Action.scheduleBaseStartAfter 100 ∈
      (UseSpeechRecognition.transcribeAudio 1 (FetchOutcome.httpError 500 none)
        initialOrchState).2 :=
  cloud_transcription_failure_falls_back.1 1 (FetchOutcome.httpError 500 none)
    initialOrchState (by decide) (by decide)

/-- Scheduling invariant of the playback cursor: every logged chunk ends
no later than `nextPlayTime`, and the logged chunks are pairwise
non-overlapping in order. -/
def SchedInv (st : PlaybackState) : Prop :=
  (∀ p ∈ st.played, p.1 + p.2 ≤ st.nextPlayTime) ∧
  st.played.Pairwise (fun a b => a.1 + a.2 ≤ b.1)

theorem schedInv_playChunk {st : PlaybackState} (h : SchedInv st) {ct d : ℚ} (hd : 0 ≤ d) :
    SchedInv (playChunk ct d st) := by
  obtain ⟨h1, h2⟩ := h
  have hmax : st.nextPlayTime ≤ max ct st.nextPlayTime := le_max_right _ _
  constructor
  · intro p hp
    simp only [playChunk, List.mem_append, List.mem_singleton] at hp
    rcases hp with hp | rfl
    · exact le_trans (h1 p hp) (le_trans hmax (le_add_of_nonneg_right hd))
    · exact le_refl _
  · simp only [playChunk]
    rw [List.pairwise_append]
    refine ⟨h2, List.pairwise_singleton _ _, ?_⟩
    intro a ha b hb
    rw [List.mem_singleton] at hb
    subst hb
    exact le_trans (h1 a ha) hmax

theorem schedInv_playMany :
    ∀ (chunks : List (ℚ × ℚ)) (st : PlaybackState),
      SchedInv st → (∀ p ∈ chunks, 0 ≤ p.2) → SchedInv (playMany st chunks)
  | [], _, h, _ => h
  | p :: rest, st, h, hd =>
    schedInv_playMany rest (playChunk p.1 p.2 st)
      (schedInv_playChunk h (hd p (List.mem_cons_self p rest)))
      (fun q hq => hd q (List.mem_cons_of_mem p hq))

/-- C3: every chunk fed to the playback scheduler is scheduled at
`max(currentClockTime, nextPlayTime before)`, after which `nextPlayTime`
equals that start plus the chunk's duration; `nextPlayTime` never
decreases, and the logged schedule is pairwise non-overlapping — each
chunk starts at or after the previous chunk's start plus its duration. -/
theorem playback_scheduling_no_overlap :
    ∀ (chunks : List (ℚ × ℚ)) (st0 : PlaybackState),
      st0.played = [] →
      (∀ p ∈ chunks, 0 ≤ p.2) →
      (∀ pre p post, chunks = pre ++ p :: post →
        (playChunk p.1 p.2 (playMany st0 pre)).played =
          (playMany st0 pre).played ++ [(max p.1 (playMany st0 pre).nextPlayTime, p.2)] ∧
        (playChunk p.1 p.2 (playMany st0 pre)).nextPlayTime =
          max p.1 (playMany st0 pre).nextPlayTime + p.2 ∧
        (playMany st0 pre).nextPlayTime ≤ (playChunk p.1 p.2 (playMany st0 pre)).nextPlayTime) ∧
      (playMany st0 chunks).played.Pairwise (fun a b => a.1 + a.2 ≤ b.1) := by
  intro chunks st0 hplayed hdur
  constructor
  · intro pre p post hdecomp
    have hp : 0 ≤ p.2 := by
      refine hdur p ?_
      rw [hdecomp]
      exact List.mem_append_right _ (List.mem_cons_self _ _)
    refine ⟨rfl, rfl, ?_⟩
    show (playMany st0 pre).nextPlayTime ≤ max p.1 (playMany st0 pre).nextPlayTime + p.2
    exact le_trans (le_max_right _ _) (le_add_of_nonneg_right hp)
  · have hinv : SchedInv st0 := by
      constructor
      · intro q hq
        rw [hplayed] at hq
        exact absurd hq (List.not_mem_nil q)
      · rw [hplayed]
        exact List.Pairwise.nil
    exact (schedInv_playMany chunks st0 hinv hdur).2

/-- C3 witness: two concrete chunks scheduled in sequence do not overlap. -/
theorem playback_scheduling_no_overlap_witness :
    (playMany initialPlaybackState [(0, 1), (5, 1/2)]).played.Pairwise
      (fun a b => a.1 + a.2 ≤ b.1) :=
  (playback_scheduling_no_overlap [(0, 1), (5, 1/2)] initialPlaybackState rfl
    (by intro p hp; simp at hp; rcases hp with rfl | rfl <;> norm_num)).2

end VoicePipeline

namespace VoicePipeline.UseBrowserSpeechRecognition

/-- The ascending overwrite loop of `mergeSpeechSegments` computes the
greatest matching overlap (as `-1` when no overlap matches). -/
theorem mergeOverlapStart_eq_findGreatest (ew nw : List String) :
    mergeOverlapStart ew nw =
      (if longestBoundaryOverlap ew nw = 0 then -1
       else (longestBoundaryOverlap ew nw : Int)) := by
  unfold mergeOverlapStart longestBoundaryOverlap
  generalize min (min ew.length nw.length) 10 = m
  simp only []
  induction m with
  | zero => simp
  | succ k ih =>
    rw [List.range'_concat, List.foldl_append, ih]
    have he : 1 + 1 * k = k + 1 := by omega
    simp only [List.foldl_cons, List.foldl_nil, he]
    rw [Nat.findGreatest_succ]
    by_cases h : overlapMatches ew nw (k + 1) = true
    · simp [h]
    · simp [h]

end VoicePipeline.UseBrowserSpeechRecognition

namespace VoicePipeline

open UseBrowserSpeechRecognition

/-- C5: for non-empty segments, `mergeSpeechSegments` removes from the
front of the new segment the longest case-insensitive word-level overlap
(up to a 10-word window) with the tail of the existing text before
appending: the stripped length is a matching overlap, no longer overlap in
the window matches, stripping happens exactly when some overlap matches,
and in particular merging "the quick brown" with "brown fox jumps" yields
"the quick brown fox jumps". -/
theorem merge_strips_longest_overlap :
    (∀ existing newSegment : String, existing ≠ "" → newSegment ≠ "" →
      (longestBoundaryOverlap (jsSplitWS existing) (jsSplitWS newSegment) ≠ 0 →
        overlapMatches (jsSplitWS existing) (jsSplitWS newSegment)
          (longestBoundaryOverlap (jsSplitWS existing) (jsSplitWS newSegment)) = true) ∧
      (∀ j, longestBoundaryOverlap (jsSplitWS existing) (jsSplitWS newSegment) < j →
        j ≤ min (min (jsSplitWS existing).length (jsSplitWS newSegment).length) 10 →
        overlapMatches (jsSplitWS existing) (jsSplitWS newSegment) j = false) ∧
      (longestBoundaryOverlap (jsSplitWS existing) (jsSplitWS newSegment) = 0 →
        mergeSpeechSegments existing newSegment = existing ++ " " ++ newSegment) ∧
      (longestBoundaryOverlap (jsSplitWS existing) (jsSplitWS newSegment) ≠ 0 →
        mergeSpeechSegments existing newSegment =
          existing ++
            (if jsJoin " " ((jsSplitWS newSegment).drop
                  (longestBoundaryOverlap (jsSplitWS existing) (jsSplitWS newSegment))) = ""
             then ""
             else " " ++ jsJoin " " ((jsSplitWS newSegment).drop
                  (longestBoundaryOverlap (jsSplitWS existing) (jsSplitWS newSegment)))))) ∧
    mergeSpeechSegments "the quick brown" "brown fox jumps" = "the quick brown fox jumps" := by
  constructor
  · intro existing newSegment hex hns
    refine ⟨?_, ?_, ?_, ?_⟩
    · intro hk
      exact (Nat.findGreatest_eq_iff.mp rfl).2.1 hk
    · intro j hj hjm
      have := (Nat.findGreatest_eq_iff.mp (rfl :
        longestBoundaryOverlap (jsSplitWS existing) (jsSplitWS newSegment) =
          Nat.findGreatest _ _)).2.2 hj hjm
      simpa using this
    · intro hk
      simp [mergeSpeechSegments, hex, hns, mergeOverlapStart_eq_findGreatest, hk]
    · intro hk
      have hpos : (0 : Int) < (longestBoundaryOverlap (jsSplitWS existing)
          (jsSplitWS newSegment) : Int) := by
        exact_mod_cast Nat.pos_of_ne_zero hk
      simp [mergeSpeechSegments, hex, hns, mergeOverlapStart_eq_findGreatest, hk, hpos]
  · decide

/-- C5 witness: the concrete merge of the claim, obtained from the
theorem at the non-empty segments "the quick brown" and "brown fox jumps"
(their longest boundary overlap being the single word "brown"). -/
theorem merge_strips_longest_overlap_witness :
    mergeSpeechSegments "the quick brown" "brown fox jumps" =
      "the quick brown" ++
        (if jsJoin " " ((jsSplitWS "brown fox jumps").drop
              (longestBoundaryOverlap (jsSplitWS "the quick brown")
                (jsSplitWS "brown fox jumps"))) = ""
         then ""
         else " " ++ jsJoin " " ((jsSplitWS "brown fox jumps").drop
              (longestBoundaryOverlap (jsSplitWS "the quick brown")
                (jsSplitWS "brown fox jumps")))) :=
  ((merge_strips_longest_overlap.1 "the quick brown" "brown fox jumps"
      (by decide) (by decide)).2.2.2 (by decide))

end VoicePipeline

namespace VoicePipeline.UseBrowserSpeechRecognition

open VoicePipeline

/-- A `find?` over a filtered list is a `find?` with the conjoined test. -/
theorem find?_filter {α : Type} (L : List α) (p q : α → Bool) :
    (L.filter p).find? q = L.find? (fun x => p x && q x) := by
  induction L with
  | nil => rfl
  | cons a l ih =>
    by_cases hp : p a
    · by_cases hq : q a
      · simp [List.filter_cons, hp, hq, List.find?_cons_of_pos]
      · simp [List.filter_cons, hp, hq, ih, List.find?_cons_of_neg]
    · simp [List.filter_cons, hp, ih, List.find?_cons_of_neg]

/-- A position returned by the window search is a valid index. -/
theorem windowRecurrence_valid {words : List String} {n i : Int}
    (h : windowRecurrence words n = some i) : 0 ≤ i ∧ i.toNat < words.length := by
  have hmem := List.mem_of_find?_eq_some h
  have hfil := List.of_mem_filter hmem
  have hp := of_decide_eq_true hfil
  exact ⟨hp.1, by omega⟩

/-- A position returned by the window search holds the first word. -/
theorem windowRecurrence_matches {words : List String} {n i : Int}
    (h : windowRecurrence words n = some i) :
    jsToLower (words.getD i.toNat "") = jsToLower (words.headD "") := by
  have := List.find?_some h
  exact eq_of_beq this

/-- A position returned by the fallback backwards search is in range. -/
theorem lastRecurrence_lt {words : List String} {j : Nat}
    (h : lastRecurrence words = some j) : j < words.length := by
  have hmem := List.mem_of_find?_eq_some h
  rw [List.mem_reverse, List.mem_range] at hmem
  exact hmem

/-- A position returned by the fallback backwards search holds the first
word. -/
theorem lastRecurrence_matches {words : List String} {j : Nat}
    (h : lastRecurrence words = some j) :
    jsToLower (words.getD j "") = jsToLower (words.headD "") := by
  have := List.find?_some h
  exact eq_of_beq this

/-- Unfolding of `applyHumanWordLimitLogic` when the word count does not
exceed the estimate by more than 3: the transcript is unchanged. -/
theorem applyHuman_of_le (t : String) (e w : ℚ)
    (hle : ((jsSplitWS t).length : Int) ≤ ⌊e * w⌋ + 3) :
    applyHumanWordLimitLogic t e w = t := by
  simp only [applyHumanWordLimitLogic]
  rw [if_neg (not_lt.mpr hle)]

/-- Unfolding of `applyHumanWordLimitLogic` when the throttle fires and
the window search finds a recurrence. -/
theorem applyHuman_of_window (t : String) (e w : ℚ) (i : Int)
    (hlt : (⌊e * w⌋ + 3 : Int) < ((jsSplitWS t).length : Int))
    (hfind : windowRecurrence (jsSplitWS t) ⌊e * w⌋ = some i) :
    applyHumanWordLimitLogic t e w = jsJoin " " ((jsSplitWS t).drop i.toNat) := by
  have hv := windowRecurrence_valid hfind
  simp only [applyHumanWordLimitLogic]
  rw [if_pos hlt, hfind]
  simp only []
  rw [if_pos hv.2]

/-- Unfolding of `applyHumanWordLimitLogic` when the throttle fires, the
window search fails and the backwards search finds the last occurrence. -/
theorem applyHuman_of_fallback (t : String) (e w : ℚ) (j : Nat)
    (hlt : (⌊e * w⌋ + 3 : Int) < ((jsSplitWS t).length : Int))
    (hnone : windowRecurrence (jsSplitWS t) ⌊e * w⌋ = none)
    (hj : lastRecurrence (jsSplitWS t) = some j) :
    applyHumanWordLimitLogic t e w = jsJoin " " ((jsSplitWS t).drop j) := by
  have hv := lastRecurrence_lt hj
  simp only [applyHumanWordLimitLogic]
  rw [if_pos hlt, hnone]
  simp only [hj]
  rw [if_pos hv]

/-- Unfolding of `applyHumanWordLimitLogic` when the throttle fires but
neither search finds the first word again. -/
theorem applyHuman_of_nofind (t : String) (e w : ℚ)
    (hlt : (⌊e * w⌋ + 3 : Int) < ((jsSplitWS t).length : Int))
    (hnone : windowRecurrence (jsSplitWS t) ⌊e * w⌋ = none)
    (hnone2 : lastRecurrence (jsSplitWS t) = none) :
    applyHumanWordLimitLogic t e w = t := by
  simp only [applyHumanWordLimitLogic]
  rw [if_pos hlt, hnone]
  simp only [hnone2]

end VoicePipeline.UseBrowserSpeechRecognition

namespace VoicePipeline.UseBrowserSpeechRecognition

/-- When the first word recurs at the expected position `n` and not at the
earlier window positions `n-2`, `n-1`, the window search returns `n`. -/
theorem windowRecurrence_of_match_at_n {words : List String} {n : Int}
    (h0 : 0 ≤ n) (hlen : n < (words.length : Int))
    (hmatch : jsToLower (words.getD n.toNat "") = jsToLower (words.headD ""))
    (hm2 : 0 ≤ n - 2 → jsToLower (words.getD (n - 2).toNat "") ≠ jsToLower (words.headD ""))
    (hm1 : 0 ≤ n - 1 → jsToLower (words.getD (n - 1).toNat "") ≠ jsToLower (words.headD "")) :
    windowRecurrence words n = some n := by
  unfold windowRecurrence targetPositions
  rw [find?_filter]
  have e2 : (decide (0 ≤ n - 2 ∧ n - 2 < (words.length : Int)) &&
      (jsToLower (words.getD (n - 2).toNat "") == jsToLower (words.headD ""))) = false := by
    by_cases hc : 0 ≤ n - 2
    · rw [beq_eq_false_iff_ne.mpr (hm2 hc), Bool.and_false]
    · rw [decide_eq_false (fun hand => hc hand.1), Bool.false_and]
  have e1 : (decide (0 ≤ n - 1 ∧ n - 1 < (words.length : Int)) &&
      (jsToLower (words.getD (n - 1).toNat "") == jsToLower (words.headD ""))) = false := by
    by_cases hc : 0 ≤ n - 1
    · rw [beq_eq_false_iff_ne.mpr (hm1 hc), Bool.and_false]
    · rw [decide_eq_false (fun hand => hc hand.1), Bool.false_and]
  have et : (decide (0 ≤ n ∧ n < (words.length : Int)) &&
      (jsToLower (words.getD n.toNat "") == jsToLower (words.headD ""))) = true := by
    rw [decide_eq_true (And.intro h0 hlen), beq_iff_eq.mpr hmatch, Bool.and_self]
  rw [List.find?_cons_of_neg _ (by simpa using e2), List.find?_cons_of_neg _ (by simpa using e1),
    List.find?_cons_of_pos _ (by simpa using et)]

end VoicePipeline.UseBrowserSpeechRecognition

namespace VoicePipeline

open UseBrowserSpeechRecognition

/-- C6: the word-count throttle computes the expected count
`n = ⌊elapsedSeconds * wordsPerSecond⌋`; when the actual word count does
not exceed `n + 3` the transcript is unchanged; when it does, a
recurrence of the first word found at the window positions `n-2 .. n+2`
truncates everything before it, and otherwise the last occurrence of the
first word anywhere does; in particular when the first word recurs at
position `n` itself (and not at the earlier window positions), the output
starts at that recurrence. -/
theorem word_throttle_recurrence :
    ∀ (t : String) (e w : ℚ),
      (((jsSplitWS t).length : Int) ≤ ⌊e * w⌋ + 3 → applyHumanWordLimitLogic t e w = t) ∧
      ((⌊e * w⌋ + 3 : Int) < ((jsSplitWS t).length : Int) →
        (∀ i : Int, windowRecurrence (jsSplitWS t) ⌊e * w⌋ = some i →
          applyHumanWordLimitLogic t e w = jsJoin " " ((jsSplitWS t).drop i.toNat)) ∧
        (windowRecurrence (jsSplitWS t) ⌊e * w⌋ = none →
          ∀ j : Nat, lastRecurrence (jsSplitWS t) = some j →
            applyHumanWordLimitLogic t e w = jsJoin " " ((jsSplitWS t).drop j))) ∧
      (0 ≤ ⌊e * w⌋ → (⌊e * w⌋ + 3 : Int) < ((jsSplitWS t).length : Int) →
        jsToLower ((jsSplitWS t).getD (⌊e * w⌋).toNat "") =
          jsToLower ((jsSplitWS t).headD "") →
        (0 ≤ ⌊e * w⌋ - 2 →
          jsToLower ((jsSplitWS t).getD (⌊e * w⌋ - 2).toNat "") ≠
            jsToLower ((jsSplitWS t).headD "")) →
        (0 ≤ ⌊e * w⌋ - 1 →
          jsToLower ((jsSplitWS t).getD (⌊e * w⌋ - 1).toNat "") ≠
            jsToLower ((jsSplitWS t).headD "")) →
        applyHumanWordLimitLogic t e w =
          jsJoin " " ((jsSplitWS t).drop (⌊e * w⌋).toNat)) := by
  intro t e w
  refine ⟨applyHuman_of_le t e w, ?_, ?_⟩
  · intro hlt
    exact ⟨fun i hf => applyHuman_of_window t e w i hlt hf,
           fun hn j hj => applyHuman_of_fallback t e w j hlt hn hj⟩
  · intro h0 hlt hmatch hm2 hm1
    have hlen : ⌊e * w⌋ < ((jsSplitWS t).length : Int) := by omega
    exact applyHuman_of_window t e w ⌊e * w⌋ hlt
      (windowRecurrence_of_match_at_n h0 hlen hmatch hm2 hm1)

/-- C6 witness: nine words after an elapsed time implying `n = 4`; the
first word "go" recurs at position 4 and the output starts there. -/
theorem word_throttle_recurrence_witness :
    applyHumanWordLimitLogic "go a b c go d e f g" 2 2 =
      jsJoin " " ((jsSplitWS "go a b c go d e f g").drop (4 : Int).toNat) := by
  have h := (word_throttle_recurrence "go a b c go d e f g" 2 2).2.2
  have hfl : (⌊(2 : ℚ) * 2⌋ : Int) = 4 := by norm_num
  rw [hfl] at h
  exact h (by decide) (by decide) (by decide) (by decide) (by decide)

end VoicePipeline

namespace VoicePipeline

/-- A string built from a non-empty character list is non-empty. -/
theorem mk_ne_empty {l : List Char} (h : l ≠ []) : String.mk l ≠ "" :=
  fun hc => h (congrArg String.data hc)

/-- Every word produced by the splitting loop is non-empty. -/
theorem wordsAux_ne_empty :
    ∀ (l cur : List Char) (s : String), s ∈ wordsAux cur l → s ≠ "" := by
  intro l
  induction l with
  | nil =>
    intro cur s hs
    unfold wordsAux at hs
    by_cases hc : cur.isEmpty
    · rw [if_pos hc] at hs
      exact absurd hs (List.not_mem_nil s)
    · rw [if_neg hc] at hs
      rw [List.mem_singleton] at hs
      subst hs
      refine mk_ne_empty (fun hrev => ?_)
      rw [List.reverse_eq_nil_iff] at hrev
      rw [hrev] at hc
      exact hc rfl
  | cons c rest ih =>
    intro cur s hs
    unfold wordsAux at hs
    by_cases hw : jsWhitespace c
    · rw [if_pos hw] at hs
      by_cases hc : cur.isEmpty
      · rw [if_pos hc] at hs
        exact ih [] s hs
      · rw [if_neg hc] at hs
        rcases List.mem_cons.mp hs with rfl | hs2
        · refine mk_ne_empty (fun hrev => ?_)
          rw [List.reverse_eq_nil_iff] at hrev
          rw [hrev] at hc
          exact hc rfl
        · exact ih [] s hs2
    · rw [if_neg hw] at hs
      exact ih (c :: cur) s hs

/-- The word list of a string is either the degenerate `[""]` (for a
whitespace-only string) or has only non-empty words. -/
theorem jsSplitWS_all_ne_empty (s : String) :
    jsSplitWS s = [""] ∨ ∀ w ∈ jsSplitWS s, w ≠ "" := by
  unfold jsSplitWS
  by_cases h : jsTrim s = ""
  · left
    simp [h]
  · right
    intro w hw
    simp only [if_neg h] at hw
    exact wordsAux_ne_empty _ _ w hw

/-- Joining a list headed by a non-empty word is non-empty. -/
theorem jsJoin_ne_empty {w : String} (hw : w ≠ "") (rest : List String) :
    jsJoin " " (w :: rest) ≠ "" := by
  cases rest with
  | nil => simpa [jsJoin] using hw
  | cons b bs =>
    show w ++ " " ++ jsJoin " " (b :: bs) ≠ ""
    intro hc
    have hd := congrArg String.data hc
    rw [String.data_append, String.data_append] at hd
    rcases List.append_eq_nil.mp hd with ⟨h1, _⟩
    rcases List.append_eq_nil.mp h1 with ⟨_, h2⟩
    exact absurd h2 (by decide)

open UseBrowserSpeechRecognition

/-- C10: for a non-empty transcript (and non-negative elapsed time and
rate) the throttle returns either the input unchanged or the suffix of
the word list starting at a (case-insensitive) occurrence of the first
word; the output is never empty; and when the word count is at most
`expected + 3` the input is returned unchanged. -/
theorem word_throttle_returns_suffix :
    ∀ (t : String) (e w : ℚ), t ≠ "" → 0 ≤ e → 0 ≤ w →
      (applyHumanWordLimitLogic t e w = t ∨
        ∃ i, i < (jsSplitWS t).length ∧
          jsToLower ((jsSplitWS t).getD i "") = jsToLower ((jsSplitWS t).headD "") ∧
          applyHumanWordLimitLogic t e w = jsJoin " " ((jsSplitWS t).drop i)) ∧
      applyHumanWordLimitLogic t e w ≠ "" ∧
      (((jsSplitWS t).length : Int) ≤ ⌊e * w⌋ + 3 → applyHumanWordLimitLogic t e w = t) := by
  intro t e w ht he hw
  have hn0 : 0 ≤ ⌊e * w⌋ := Int.floor_nonneg.mpr (mul_nonneg he hw)
  by_cases hc : ((jsSplitWS t).length : Int) ≤ ⌊e * w⌋ + 3
  · have hr := applyHuman_of_le t e w hc
    exact ⟨Or.inl hr, by rw [hr]; exact ht, fun _ => hr⟩
  · push_neg at hc
    have hwords : ∀ x ∈ jsSplitWS t, x ≠ "" := by
      rcases jsSplitWS_all_ne_empty t with h1 | h2
      · rw [h1] at hc
        simp at hc
        omega
      · exact h2
    have hjoin : ∀ i : Nat, i < (jsSplitWS t).length →
        jsJoin " " ((jsSplitWS t).drop i) ≠ "" := by
      intro i hi
      cases hd : (jsSplitWS t).drop i with
      | nil =>
        have := List.drop_eq_nil_iff.mp hd
        omega
      | cons a rest =>
        have ha : a ∈ jsSplitWS t :=
          List.mem_of_mem_drop (hd ▸ List.mem_cons_self a rest)
        exact jsJoin_ne_empty (hwords a ha) rest
    cases hwin : windowRecurrence (jsSplitWS t) ⌊e * w⌋ with
    | some i =>
      have hv := windowRecurrence_valid hwin
      have hm := windowRecurrence_matches hwin
      have hr := applyHuman_of_window t e w i hc hwin
      refine ⟨Or.inr ⟨i.toNat, hv.2, hm, hr⟩, ?_, fun hle => absurd hle (not_le.mpr hc)⟩
      rw [hr]
      exact hjoin i.toNat hv.2
    | none =>
      cases hlast : lastRecurrence (jsSplitWS t) with
      | some j =>
        have hv := lastRecurrence_lt hlast
        have hm := lastRecurrence_matches hlast
        have hr := applyHuman_of_fallback t e w j hc hwin hlast
        refine ⟨Or.inr ⟨j, hv, hm, hr⟩, ?_, fun hle => absurd hle (not_le.mpr hc)⟩
        rw [hr]
        exact hjoin j hv
      | none =>
        have hr := applyHuman_of_nofind t e w hc hwin hlast
        exact ⟨Or.inl hr, by rw [hr]; exact ht, fun hle => absurd hle (not_le.mpr hc)⟩

/-- C10 witness: a short transcript is returned unchanged and non-empty. -/
theorem word_throttle_returns_suffix_witness :
    applyHumanWordLimitLogic "hi there" 5 2 ≠ "" ∧
    applyHumanWordLimitLogic "hi there" 5 2 = "hi there" := by
  have h := word_throttle_returns_suffix "hi there" 5 2 (by decide) (by decide) (by decide)
  refine ⟨h.2.1, h.2.2 ?_⟩
  have hfl : (⌊(5 : ℚ) * 2⌋ : Int) = 10 := by norm_num
  rw [hfl]
  decide

end VoicePipeline

namespace VoicePipeline.SilenceDetection

/-- Trace invariant of the silence detector: at most one stop is ever
scheduled; while the poll loop is alive no stop is pending; speech was
marked only after a loud frame; a recorded silence start is the time of a
quiet frame followed only by quiet frames; and a scheduled stop has its
100ms debounce and is justified by a silence span longer than 2000ms that
follows detected speech. -/
def DetInv (frames : List Frame) (st : DetState) : Prop :=
  st.stopCount ≤ 1 ∧
  (st.active = true → st.stopDelay = none ∧ st.stopCount = 0) ∧
  (st.speechStarted = true → ∃ f ∈ frames, 30 < f.avg) ∧
  (st.active = true → ∀ s, st.silenceStart = some s →
    st.speechStarted = true ∧
    (∃ f ∈ frames, f.time = s ∧ f.avg ≤ 30) ∧
    (∀ f ∈ frames, s ≤ f.time → f.avg ≤ 30)) ∧
  (st.stopCount = 1 →
    st.stopDelay = some 100 ∧
    ∃ s tf : ℚ, 2000 < tf - s ∧
      (∃ f ∈ frames, f.time = s ∧ f.avg ≤ 30) ∧
      (∃ f ∈ frames, f.time = tf) ∧
      (∀ f ∈ frames, s ≤ f.time → f.time ≤ tf → f.avg ≤ 30) ∧
      (∃ f ∈ frames, f.time < s ∧ 30 < f.avg))

theorem detInv_step {frames : List Frame} {st : DetState} {f : Frame}
    (hinv : DetInv frames st) (hf : ∀ g ∈ frames, g.time < f.time) :
    DetInv (frames ++ [f]) (checkAudioLevel st f) := by
  obtain ⟨hA, hB, hC, hD, hE⟩ := hinv
  have memL : ∀ g ∈ frames, g ∈ frames ++ [f] := fun g hg => List.mem_append_left _ hg
  have memR : f ∈ frames ++ [f] := List.mem_append_right _ (List.mem_singleton.mpr rfl)
  have extC : (st.speechStarted = true → ∃ g ∈ frames ++ [f], 30 < g.avg) :=
    fun h => (hC h).elim fun g hg => ⟨g, memL g hg.1, hg.2⟩
  have extE : st.stopCount = 1 →
      st.stopDelay = some 100 ∧
      ∃ s tf : ℚ, 2000 < tf - s ∧
        (∃ g ∈ frames ++ [f], g.time = s ∧ g.avg ≤ 30) ∧
        (∃ g ∈ frames ++ [f], g.time = tf) ∧
        (∀ g ∈ frames ++ [f], s ≤ g.time → g.time ≤ tf → g.avg ≤ 30) ∧
        (∃ g ∈ frames ++ [f], g.time < s ∧ 30 < g.avg) := by
    intro h1
    obtain ⟨hdel, s, tf, hspan, ⟨g1, hg1, hg1t, hg1a⟩, ⟨g2, hg2, hg2t⟩, hall, g3, hg3, hg3t, hg3a⟩ :=
      hE h1
    refine ⟨hdel, s, tf, hspan, ⟨g1, memL g1 hg1, hg1t, hg1a⟩, ⟨g2, memL g2 hg2, hg2t⟩, ?_,
      ⟨g3, memL g3 hg3, hg3t, hg3a⟩⟩
    intro g hg hgs hgtf
    rcases List.mem_append.mp hg with hg | hg
    · exact hall g hg hgs hgtf
    · rw [List.mem_singleton] at hg
      subst hg
      have := hf g2 hg2
      rw [hg2t] at this
      exact absurd hgtf (not_le.mpr this)
  unfold checkAudioLevel
  by_cases hact : st.active = false
  · rw [if_pos hact]
    refine ⟨hA, ?_, extC, ?_, extE⟩
    · intro h
      rw [h] at hact
      exact absurd hact (by simp)
    · intro h
      rw [h] at hact
      exact absurd hact (by simp)
  · rw [if_neg hact]
    rw [Bool.not_eq_false] at hact
    have hB1 := hB hact
    have hEvac : ∀ (st2 : DetState), st2.stopCount = st.stopCount →
        st2.stopCount = 1 → st2.stopDelay = some 100 ∧
        ∃ s tf : ℚ, 2000 < tf - s ∧
          (∃ g ∈ frames ++ [f], g.time = s ∧ g.avg ≤ 30) ∧
          (∃ g ∈ frames ++ [f], g.time = tf) ∧
          (∀ g ∈ frames ++ [f], s ≤ g.time → g.time ≤ tf → g.avg ≤ 30) ∧
          (∃ g ∈ frames ++ [f], g.time < s ∧ 30 < g.avg) := by
      intro st2 hcnt h1
      rw [hcnt, hB1.2] at h1
      exact absurd h1 (by simp)
    by_cases hrec : f.recording = false
    · rw [if_pos hrec]
      refine ⟨hA, ?_, extC, ?_, extE⟩
      · intro h
        exact absurd h (by simp)
      · intro h
        exact absurd h (by simp)
    · rw [if_neg hrec]
      by_cases hloud : 30 < f.avg
      · rw [if_pos hloud]
        refine ⟨hA, fun _ => ⟨rfl, hB1.2⟩, fun _ => ⟨f, memR, hloud⟩, ?_, ?_⟩
        · intro _ s hs
          exact absurd hs (by simp)
        · intro h1
          exact hEvac _ rfl h1
      · rw [if_neg hloud]
        have hquiet : f.avg ≤ 30 := not_lt.mp hloud
        by_cases hsil : st.speechStarted = true ∧ st.silenceStart = none
        · rw [if_pos hsil]
          refine ⟨hA, fun _ => hB1, extC, ?_, ?_⟩
          · intro _ s hs
            simp only [Option.some.injEq] at hs
            subst hs
            refine ⟨hsil.1, ⟨f, memR, rfl, hquiet⟩, ?_⟩
            intro g hg hgs
            rcases List.mem_append.mp hg with hg | hg
            · exact absurd hgs (not_le.mpr (hf g hg))
            · rw [List.mem_singleton] at hg
              subst hg
              exact hquiet
          · intro h1
            exact hEvac _ rfl h1
        · rw [if_neg hsil]
          by_cases hsil2 : st.speechStarted = true ∧ st.silenceStart.isSome = true
          · rw [if_pos hsil2]
            obtain ⟨s0, hs0⟩ := Option.isSome_iff_exists.mp hsil2.2
            have hDs := hD hact s0 hs0
            by_cases hlong : 2000 < f.time - st.silenceStart.getD 0
            · rw [if_pos hlong]
              rw [hs0] at hlong
              simp only [Option.getD_some] at hlong
              by_cases hpend : st.stopDelay = none
              · rw [if_pos hpend]
                refine ⟨?_, ?_, extC, ?_, ?_⟩
                · show st.stopCount + 1 ≤ 1
                  omega
                · intro h
                  exact absurd h (by simp)
                · intro h
                  exact absurd h (by simp)
                · intro _
                  refine ⟨rfl, s0, f.time, hlong, ?_, ⟨f, memR, rfl⟩, ?_, ?_⟩
                  · obtain ⟨g, hg, hgt, hga⟩ := hDs.2.1
                    exact ⟨g, memL g hg, hgt, hga⟩
                  · intro g hg hgs _
                    rcases List.mem_append.mp hg with hg | hg
                    · exact hDs.2.2 g hg hgs
                    · rw [List.mem_singleton] at hg
                      subst hg
                      exact hquiet
                  · obtain ⟨g, hg, hga⟩ := hC hsil2.1
                    refine ⟨g, memL g hg, ?_, hga⟩
                    by_contra hge
                    push_neg at hge
                    exact absurd hga (not_lt.mpr (hDs.2.2 g hg hge))
              · rw [if_neg hpend]
                exact absurd hB1.1 hpend
            · rw [if_neg hlong]
              refine ⟨hA, fun _ => hB1, extC, ?_, ?_⟩
              · intro _ s hs
                have hDs2 := hD hact s hs
                refine ⟨hDs2.1, ?_, ?_⟩
                · obtain ⟨g, hg, hgt, hga⟩ := hDs2.2.1
                  exact ⟨g, memL g hg, hgt, hga⟩
                · intro g hg hgs
                  rcases List.mem_append.mp hg with hg | hg
                  · exact hDs2.2.2 g hg hgs
                  · rw [List.mem_singleton] at hg
                    subst hg
                    exact hquiet
              · intro h1
                exact hEvac _ rfl h1
          · rw [if_neg hsil2]
            refine ⟨hA, fun _ => hB1, extC, ?_, ?_⟩
            · intro _ s hs
              have hDs2 := hD hact s hs
              refine ⟨hDs2.1, ?_, ?_⟩
              · obtain ⟨g, hg, hgt, hga⟩ := hDs2.2.1
                exact ⟨g, memL g hg, hgt, hga⟩
              · intro g hg hgs
                rcases List.mem_append.mp hg with hg | hg
                · exact hDs2.2.2 g hg hgs
                · rw [List.mem_singleton] at hg
                  subst hg
                  exact hquiet
            · intro h1
              exact hEvac _ rfl h1

theorem runSilence_detInv :
    ∀ frames : List Frame,
      frames.Pairwise (fun f g => f.time < g.time) →
      DetInv frames (runSilence frames) := by
  intro frames
  induction frames using List.reverseRecOn with
  | nil =>
    intro _
    refine ⟨by simp [runSilence, initialDetState], ?_, ?_, ?_, ?_⟩ <;>
      simp [runSilence, initialDetState, DetInv]
  | append_singleton fs f ih =>
    intro hpw
    rw [List.pairwise_append] at hpw
    have hf : ∀ g ∈ fs, g.time < f.time :=
      fun g hg => hpw.2.2 g hg f (List.mem_singleton.mpr rfl)
    have hrw : runSilence (fs ++ [f]) = checkAudioLevel (runSilence fs) f := by
      simp [runSilence, List.foldl_append]
    rw [hrw]
    exact detInv_step (ih hpw.1) hf

end VoicePipeline.SilenceDetection

namespace VoicePipeline

open SilenceDetection

/-- C7: over any one recording session's frames (taken at strictly
increasing times), the silence detector schedules its stop at most once;
and when it does, the stop goes through the 100ms debounce, at least one
frame above the threshold of 30 was observed, and there is a silence span
longer than 2000ms — starting at a quiet frame, every frame of the span
quiet — preceded by a loud frame. -/
theorem silence_stop_once_after_speech :
    ∀ frames : List Frame,
      frames.Pairwise (fun f g => f.time < g.time) →
      (runSilence frames).stopCount ≤ 1 ∧
      ((runSilence frames).stopCount = 1 →
        (runSilence frames).stopDelay = some 100 ∧
        (∃ f ∈ frames, 30 < f.avg) ∧
        ∃ s tf : ℚ, 2000 < tf - s ∧
          (∃ f ∈ frames, f.time = s ∧ f.avg ≤ 30) ∧
          (∀ f ∈ frames, s ≤ f.time → f.time ≤ tf → f.avg ≤ 30) ∧
          (∃ f ∈ frames, f.time < s ∧ 30 < f.avg)) := by
  intro frames hpw
  obtain ⟨hA, _, _, _, hE⟩ := runSilence_detInv frames hpw
  refine ⟨hA, fun h1 => ?_⟩
  obtain ⟨hdel, s, tf, hspan, hs, _, hall, g, hg, hgs, hga⟩ := hE h1
  exact ⟨hdel, ⟨g, hg, hga⟩, s, tf, hspan, hs, hall, ⟨g, hg, hgs, hga⟩⟩

/-- C7 witness: a loud frame, then silence frames 2100ms apart, schedule
exactly one stop. -/
theorem silence_stop_once_after_speech_witness :
    (runSilence [⟨0, 100, true⟩, ⟨100, 0, true⟩, ⟨2200, 0, true⟩]).stopCount ≤ 1 ∧
    (runSilence [⟨0, 100, true⟩, ⟨100, 0, true⟩, ⟨2200, 0, true⟩]).stopCount = 1 := by
  constructor
  · exact (silence_stop_once_after_speech
      [⟨0, 100, true⟩, ⟨100, 0, true⟩, ⟨2200, 0, true⟩]
      (by norm_num [List.pairwise_cons])).1
  · norm_num [runSilence, checkAudioLevel, initialDetState, List.foldl]
    simp

end VoicePipeline

namespace VoicePipeline

open UseSpeechRecognition

/-- C9 witness: the orchestrator's transcription of a zero-size blob
surfaces an error even when the endpoint would have answered. -/
theorem zero_byte_blob_fails_fast_witness :
    (UseSpeechRecognition.transcribeAudio 0 (FetchOutcome.success (some "hello"))
      initialOrchState).1.error.isSome = true :=
  ((zero_byte_blob_fails_fast (FetchOutcome.success (some "hello"))).1 initialOrchState).1

end VoicePipeline
